import Mathlib

/-!
Verification of the masked normalized cross-correlation kernel.

Shallow embedding of `src/skimage/feature/_mnxc.py` (functions `mnxc`,
`_centered`, `_flip`).

Modelling conventions:
* N-dimensional numpy arrays are modelled by `NDArr`: a shape (list of
  extents) together with a total data function on index lists; reads are
  meaningful on in-bounds indices.
* Floating-point arithmetic is modelled exactly: all quantities up to the
  square root are rational, and the final stage (`np.sqrt`, division,
  clipping) lives in `ℝ`.  `np.finfo(float).eps` is the exact rational
  `2 ^ (-52)`.
* The Fourier-transform primitive is an external collaborator of the
  repository (numpy/scipy).  The composite `ifft(fft a * fft b)` at shape
  `fast_shape` along the transform axes is embedded by its exact
  mathematical semantics: the cyclic convolution of the zero-padded
  arrays (`convFFT`).  `next_fast_len` (scipy) is embedded as the least
  5-smooth integer that is at least its argument.
* numpy basic slicing, as used by the source (`slice(None)`,
  `slice(None, None, -1)`, `slice(start, stop)`), is embedded by `Sl`.
* Python negative-index wrapping on axis arguments is `pyIdx`.
-/

namespace MNXC

set_option maxRecDepth 100000

attribute [local semireducible] Rat.add Rat.sub Rat.mul Rat.inv

/-- Python index semantics for an axis argument: a negative axis counts
from the end (`lst[a]` with `a < 0` reads `lst[n + a]`). -/
def pyIdx (n : ℕ) (a : ℤ) : ℕ :=
  if a < 0 then ((n : ℤ) + a).toNat else a.toNat

/-- Bounds check: `idx` is a valid index tuple for an array of shape
`shape`. -/
def inB (shape idx : List ℕ) : Bool :=
  (idx.length == shape.length) &&
    (List.range shape.length).all (fun p => decide (idx.getD p 0 < shape.getD p 0))

/-- All index tuples below the given extents, in lexicographic order. -/
def tuples : List ℕ → List (List ℕ)
  | [] => [[]]
  | n :: ns => ((List.range n).map (fun i => (tuples ns).map (fun t => i :: t))).flatten

/-- An N-dimensional array: a shape and a (total) data function. -/
structure NDArr (α : Type) where
  shape : List ℕ
  data : List ℕ → α

/-- The slice forms constructed by the source: `slice(None)` (keep the
axis), `slice(None, None, -1)` (reverse the axis), and
`slice(start, stop)` (a contiguous crop). -/
inductive Sl where
  | all : Sl
  | rev : Sl
  | range (start stop : ℕ) : Sl

/-- Extent of one axis of length `n` after applying a slice (numpy
semantics; `stop` is clamped to the axis length). -/
def slLen (n : ℕ) : Sl → ℕ
  | Sl.all => n
  | Sl.rev => n
  | Sl.range start stop => min stop n - start

/-- Source index, on an axis of length `n`, of element `i` of the sliced
axis. -/
def slIdx (n : ℕ) : Sl → ℕ → ℕ
  | Sl.all, i => i
  | Sl.rev, i => n - 1 - i
  | Sl.range start _, i => start + i

/-- numpy basic slicing `arr[tuple(slices)]`: every axis is sliced, and
element `idx` of the result reads the source at the per-axis source
indices. -/
def applySl {α : Type} (arr : NDArr α) (sls : List Sl) : NDArr α :=
  ⟨List.zipWith slLen arr.shape sls,
   fun idx => arr.data ((List.range sls.length).map
     (fun p => slIdx (arr.shape.getD p 0) (sls.getD p Sl.all) (idx.getD p 0)))⟩

/-- `_flip(arr, axes)` from the source: reverse the array along the given
axes (all axes when `axes` is `None`), via a slice of `-1` step per
reversed axis. -/
def _flip {α : Type} (arr : NDArr α) (axes : Option (List ℤ)) : NDArr α :=
  match axes with
  | none => applySl arr (List.replicate arr.shape.length Sl.rev)
  | some as =>
      applySl arr
        (as.foldl (fun sls a => sls.set (pyIdx arr.shape.length a) Sl.rev)
          (List.replicate arr.shape.length Sl.all))

/-- The slice `_centered` installs on one cropped axis:
`startind = (currshape - newshape) // 2`, `endind = startind + newshape`,
`slice(startind, endind)`. -/
def centeredSl (curr new : ℕ) : Sl :=
  Sl.range ((curr - new) / 2) ((curr - new) / 2 + new)

/-- `_centered(arr, newshape, axes)` from the source: on each axis in
`axes` crop to `newshape` starting at `(curr - new) // 2`; other axes are
left un-sliced. -/
def _centered {α : Type} (arr : NDArr α) (newshape : List ℕ) (axes : List ℤ) : NDArr α :=
  applySl arr
    (axes.foldl
      (fun sls a =>
        sls.set (pyIdx arr.shape.length a)
          (centeredSl (arr.shape.getD (pyIdx arr.shape.length a) 0)
            (newshape.getD (pyIdx arr.shape.length a) 0)))
      (List.replicate arr.shape.length Sl.all))

/-- The set of positions `_flip` reverses: all positions when `axes` is
`None`, else the normalized axis positions. -/
def flipSet (n : ℕ) : Option (List ℤ) → List ℕ
  | none => List.range n
  | some as => as.map (pyIdx n)

/-- `np.finfo(np.float).eps` exactly. -/
def eps : ℚ := 1 / 2 ^ 52

/-- `np.round` on a scalar: round half to even, nearest otherwise. -/
def npRound (q : ℚ) : ℚ :=
  if q - (⌊q⌋ : ℚ) = 1 / 2 then
    (if ⌊q⌋ % 2 = 0 then (⌊q⌋ : ℚ) else (⌊q⌋ : ℚ) + 1)
  else ((round q : ℤ) : ℚ)

/-- Fuelled test for 5-smoothness (only prime factors 2, 3, 5). -/
def smooth235 : ℕ → ℕ → Bool
  | 0, _ => false
  | _ + 1, 1 => true
  | fuel + 1, n =>
      if n % 2 = 0 then smooth235 fuel (n / 2)
      else if n % 3 = 0 then smooth235 fuel (n / 3)
      else if n % 5 = 0 then smooth235 fuel (n / 5)
      else false

/-- A length admits a fast transform when it is 5-smooth. -/
def isFastLen (n : ℕ) : Bool := smooth235 n n

/-- Modelled from the spec: `scipy.fftpack.next_fast_len`, the external
fast-length policy — the smallest transform-efficient (5-smooth) length
that is at least `n`. -/
def nextFastLen (n : ℕ) : ℕ :=
  match (List.range (2 * n + 2)).find? (fun m => decide (n ≤ m) && isFastLen m) with
  | some m => m
  | none => n

/-- Read of a zero-padded array: in-bounds indices read the data,
out-of-bounds reads give `0` (the zero padding of the transform). -/
def getPad (a : NDArr ℚ) (idx : List ℕ) : ℚ :=
  if inB a.shape idx then a.data idx else 0

/-- Overwrite the positions `ps` of `idx` with the values `vs`. -/
def setMany (idx ps vs : List ℕ) : List ℕ :=
  (ps.zip vs).foldl (fun l pv => l.set pv.1 pv.2) idx

/-- Read the positions `ps` of `idx`. -/
def getMany (idx ps : List ℕ) : List ℕ := ps.map (fun p => idx.getD p 0)

/-- Modelled from the spec: the composite `ifft(fft a * fft b)` of the
external transform collaborator, at shape `fast` along the transform
positions `T`, other axes passed through.  Its exact-arithmetic value is
the cyclic convolution of the two arrays zero-padded to `fast` along
`T`. -/
def convFFT (T fast : List ℕ) (a b : NDArr ℚ) : NDArr ℚ :=
  ⟨(T.zip fast).foldl (fun s pf => s.set pf.1 pf.2) a.shape,
   fun idx =>
     ((tuples fast).map (fun j =>
        getPad a (setMany idx T j) *
        getPad b (setMany idx T
          (List.zipWith (fun kf jv => (kf.1 + kf.2 - jv) % kf.2)
            ((getMany idx T).zip fast) j)))).sum⟩

/-- Maximum of `a` over the transform positions `T` with the other
coordinates taken from `idx`: models
`np.max(a, axis = axes, keepdims = True)` broadcast back to `idx`
(the values of `a` it is applied to are nonnegative). -/
def batchMaxQ (a : NDArr ℚ) (T idx : List ℕ) : ℚ :=
  ((tuples (getMany a.shape T)).map (fun t => a.data (setMany idx T t))).foldr max 0

/-- Maximum of `|a|` over the transform positions `T` with the other
coordinates taken from `idx`: models
`np.max(np.abs(a), axis = axes, keepdims = True)`. -/
noncomputable def batchMaxAbs (a : NDArr ℝ) (T idx : List ℕ) : ℝ :=
  ((tuples (getMany a.shape T)).map (fun t => |a.data (setMany idx T t)|)).foldr max 0

/-- The errors `mnxc` raises (`ValueError` distinguished by cause). -/
inductive MnxcError where
  | invalidArgument : MnxcError
  | shapeMismatch : MnxcError
deriving DecidableEq

/-- The argument tuple of `mnxc`. -/
structure Args where
  arr1 : NDArr ℚ
  arr2 : NDArr ℚ
  m1 : NDArr Bool
  m2 : NDArr Bool
  mode : String
  axes : List ℤ
  r : ℚ

/-- `fixed_image.ndim`. -/
def ndim (g : Args) : ℕ := g.arr1.shape.length

/-- The transform axes normalized to positions (python negative-index
wrapping applied). -/
def Tpos (g : Args) : List ℕ := g.axes.map (pyIdx (ndim g))

/-- `final_shape`: start from `arr1.shape` and set every transform axis
to `size_fixed + size_moving - 1`. -/
def finalShape (g : Args) : List ℕ :=
  (Tpos g).foldl
    (fun fs p => fs.set p (g.arr1.shape.getD p 0 + g.arr2.shape.getD p 0 - 1))
    g.arr1.shape

/-- `fast_shape`: the fast transform length of each transform axis of
`final_shape`. -/
def fastShape (g : Args) : List ℕ :=
  (Tpos g).map (fun p => nextFastLen ((finalShape g).getD p 0))

/-- `fixed_image` after `fixed_image[np.logical_not(fixed_mask)] = 0`. -/
def fixedImage (g : Args) : NDArr ℚ :=
  ⟨g.arr1.shape, fun i => if g.m1.data i then g.arr1.data i else 0⟩

/-- `moving_image` after `moving_image[np.logical_not(moving_mask)] = 0`. -/
def movingImage (g : Args) : NDArr ℚ :=
  ⟨g.arr2.shape, fun i => if g.m2.data i then g.arr2.data i else 0⟩

/-- `fixed_mask` as a 0/1 numeric array (the transform is applied to the
boolean mask, which numpy promotes to numbers). -/
def fixedMaskQ (g : Args) : NDArr ℚ :=
  ⟨g.m1.shape, fun i => if g.m1.data i then 1 else 0⟩

/-- `moving_mask` as a 0/1 numeric array. -/
def movingMaskQ (g : Args) : NDArr ℚ :=
  ⟨g.m2.shape, fun i => if g.m2.data i then 1 else 0⟩

/-- `rotated_moving_image = _flip(moving_image, axes = axes)`. -/
def rotatedMovingImage (g : Args) : NDArr ℚ := _flip (movingImage g) (some g.axes)

/-- `rotated_moving_mask = _flip(moving_mask, axes = axes)`. -/
def rotatedMovingMask (g : Args) : NDArr ℚ := _flip (movingMaskQ g) (some g.axes)

/-- The correlation `ifft(fft a * fft b)` at this call's transform
positions and fast shape. -/
def corr (g : Args) (a b : NDArr ℚ) : NDArr ℚ := convFFT (Tpos g) (fastShape g) a b

/-- `np.real(ifft(rotated_moving_mask_fft * fixed_mask_fft))` (exact
arithmetic: the convolution of real arrays is real). -/
def numberOverlapRaw (g : Args) : NDArr ℚ :=
  corr g (rotatedMovingMask g) (fixedMaskQ g)

/-- `number_overlap_masked_px` after rounding and the epsilon floor
(`np.round` then `np.fmax(·, eps)`). -/
def numberOverlapMaskedPx (g : Args) : NDArr ℚ :=
  ⟨(numberOverlapRaw g).shape, fun i => max (npRound ((numberOverlapRaw g).data i)) eps⟩

/-- `masked_correlated_fixed_fft = ifft(rotated_moving_mask_fft * fixed_fft)`. -/
def maskedCorrelatedFixed (g : Args) : NDArr ℚ :=
  corr g (rotatedMovingMask g) (fixedImage g)

/-- `masked_correlated_rotated_moving_fft = ifft(fixed_mask_fft * rotated_moving_fft)`. -/
def maskedCorrelatedRotatedMoving (g : Args) : NDArr ℚ :=
  corr g (fixedMaskQ g) (rotatedMovingImage g)

/-- `np.square` (pointwise). -/
def squareArr (a : NDArr ℚ) : NDArr ℚ := ⟨a.shape, fun i => a.data i * a.data i⟩

/-- `numerator = ifft(rotated_moving_fft * fixed_fft) - mcf * mcm / overlap`. -/
def numeratorArr (g : Args) : NDArr ℚ :=
  ⟨(corr g (rotatedMovingImage g) (fixedImage g)).shape,
   fun i =>
     (corr g (rotatedMovingImage g) (fixedImage g)).data i -
       (maskedCorrelatedFixed g).data i * (maskedCorrelatedRotatedMoving g).data i /
         (numberOverlapMaskedPx g).data i⟩

/-- `fixed_denom` after the subtraction and the `np.fmax(·, 0)` floor. -/
def fixedDenom (g : Args) : NDArr ℚ :=
  ⟨(corr g (rotatedMovingMask g) (squareArr (fixedImage g))).shape,
   fun i =>
     max ((corr g (rotatedMovingMask g) (squareArr (fixedImage g))).data i -
       (maskedCorrelatedFixed g).data i * (maskedCorrelatedFixed g).data i /
         (numberOverlapMaskedPx g).data i) 0⟩

/-- `moving_denom` after the subtraction and the `np.fmax(·, 0)` floor. -/
def movingDenom (g : Args) : NDArr ℚ :=
  ⟨(corr g (fixedMaskQ g) (squareArr (rotatedMovingImage g))).shape,
   fun i =>
     max ((corr g (fixedMaskQ g) (squareArr (rotatedMovingImage g))).data i -
       (maskedCorrelatedRotatedMoving g).data i * (maskedCorrelatedRotatedMoving g).data i /
         (numberOverlapMaskedPx g).data i) 0⟩

/-- The radicand of `denom = np.sqrt(fixed_denom * moving_denom)`: the
pointwise product of the two denominator terms (kept rational; the
square root is applied in `denomC`, pointwise, so taking it before or
after the slicing below is equivalent). -/
def denomSq (g : Args) : NDArr ℚ :=
  ⟨(fixedDenom g).shape, fun i => (fixedDenom g).data i * (movingDenom g).data i⟩

/-- The `final_slice` crop `arr[final_slice]` back to `final_shape`. -/
def cropFinal {α : Type} (g : Args) (a : NDArr α) : NDArr α :=
  applySl a ((finalShape g).map (fun sz => Sl.range 0 sz))

/-- The `'same'`-mode centering `_centered(·, fixed_image.shape, axes)`,
applied only when `mode == 'same'`. -/
def sameCenter {α : Type} (g : Args) (a : NDArr α) : NDArr α :=
  if g.mode = "same" then _centered a g.arr1.shape g.axes else a

/-- `numerator` after the final-shape crop and the `'same'` centering. -/
def numeratorC (g : Args) : NDArr ℚ := sameCenter g (cropFinal g (numeratorArr g))

/-- The denominator radicand after the final-shape crop and the `'same'`
centering. -/
def denomSqC (g : Args) : NDArr ℚ := sameCenter g (cropFinal g (denomSq g))

/-- `number_overlap_masked_px` after the final-shape crop and the
`'same'` centering. -/
def overlapC (g : Args) : NDArr ℚ := sameCenter g (cropFinal g (numberOverlapMaskedPx g))

/-- `denom = np.sqrt(fixed_denom * moving_denom)` (after crop/centering). -/
noncomputable def denomC (g : Args) : NDArr ℝ :=
  ⟨(denomSqC g).shape, fun i => Real.sqrt ((denomSqC g).data i)⟩

/-- `tol = 1e3 * eps * np.max(np.abs(denom), axis = axes, keepdims = True)`
read at an index. -/
noncomputable def tolAt (g : Args) (idx : List ℕ) : ℝ :=
  1000 * (eps : ℝ) * batchMaxAbs (denomC g) (Tpos g) idx

/-- `number_px_threshold = overlap_ratio * np.max(number_overlap_masked_px,
axis = axes, keepdims = True)` read at an index. -/
def thresholdAt (g : Args) (idx : List ℕ) : ℚ :=
  g.r * batchMaxQ (overlapC g) (Tpos g) idx

/-- One value of the returned correlation surface: zero, or
`numerator / denom` where `denom > tol`, clipped to `[-1, 1]`
(`np.clip(·, -1, 1)`), and finally zeroed where the overlap count is
below the overlap-ratio threshold. -/
noncomputable def outVal (g : Args) (idx : List ℕ) : ℝ :=
  if (overlapC g).data idx < thresholdAt g idx then 0
  else
    min 1 (max (-1)
      (if tolAt g idx < (denomC g).data idx then
         ((numeratorC g).data idx : ℝ) / (denomC g).data idx
       else 0))

/-- The returned correlation surface. -/
noncomputable def outArr (g : Args) : NDArr ℝ := ⟨(denomC g).shape, outVal g⟩

/-- `mnxc`: validate the mode, validate the shapes along the axes the
source's check covers (note: the source subtracts the raw `axes` values,
without negative-index normalization, from `set(range(ndim))`), then
compute the correlation surface. -/
noncomputable def mnxc (g : Args) : Except MnxcError (NDArr ℝ) :=
  if ¬(g.mode = "full" ∨ g.mode = "same") then Except.error MnxcError.invalidArgument
  else if (List.range (ndim g)).any
      (fun ax => decide ((ax : ℤ) ∉ g.axes) &&
        decide (g.arr1.shape.getD ax 0 ≠ g.arr2.shape.getD ax 0)) then
    Except.error MnxcError.shapeMismatch
  else Except.ok (outArr g)

/-- A 1-element 1-D valid call. -/
def exScalar : Args :=
  ⟨⟨[1], fun _ => 1⟩, ⟨[1], fun _ => 1⟩, ⟨[1], fun _ => true⟩, ⟨[1], fun _ => true⟩,
   "full", [0], 3 / 10⟩

/-- A 2-element 1-D valid call whose overlap ratio `3/5` suppresses the
single-overlap end offsets. -/
def exPair : Args :=
  ⟨⟨[2], fun i => (i.headD 0 : ℚ)⟩, ⟨[2], fun i => (i.headD 0 : ℚ)⟩,
   ⟨[2], fun _ => true⟩, ⟨[2], fun _ => true⟩, "full", [0], 3 / 5⟩

/-- Two 2-D images whose sizes differ only along the second (transform)
axis, with the default transform axes `(-2, -1)`. -/
def exBug : Args :=
  ⟨⟨[1, 2], fun _ => 0⟩, ⟨[1, 3], fun _ => 0⟩, ⟨[1, 2], fun _ => true⟩,
   ⟨[1, 3], fun _ => true⟩, "full", [-2, -1], 3 / 10⟩

/-- Two 2-D images whose sizes differ only along the second axis, given
positively as `axes = (1,)`. -/
def exShape : Args :=
  ⟨⟨[1, 2], fun _ => 0⟩, ⟨[1, 3], fun _ => 0⟩, ⟨[1, 2], fun _ => true⟩,
   ⟨[1, 3], fun _ => true⟩, "full", [1], 3 / 10⟩

/-- A call with an unrecognized mode string. -/
def exInvalid : Args :=
  ⟨⟨[1], fun _ => 1⟩, ⟨[1], fun _ => 1⟩, ⟨[1], fun _ => true⟩, ⟨[1], fun _ => true⟩,
   "invalid", [0], 3 / 10⟩

/-- The spec's example scenario: fixed = moving = a 4×4 array of all 10s,
masks all true, mode full, axes (0, 1), overlap ratio 0.3. -/
def exConst : Args :=
  ⟨⟨[4, 4], fun _ => 10⟩, ⟨[4, 4], fun _ => 10⟩, ⟨[4, 4], fun _ => true⟩,
   ⟨[4, 4], fun _ => true⟩, "full", [0, 1], 3 / 10⟩

/-- The surface returned on the spec's example scenario. -/
noncomputable def exConstOut : NDArr ℝ := outArr exConst

/-- A valid 2×2 call correlating along axis 1 only, whose fixed mask is
valid only in batch row 0 and whose moving mask is valid only in batch
row 1: the masks are disjoint batch-wise, so no offset pairs a valid
fixed position with a valid moving position. -/
def exBatchDisjoint : Args :=
  ⟨⟨[2, 2], fun _ => 1⟩, ⟨[2, 2], fun _ => 1⟩,
   ⟨[2, 2], fun i => i.getD 0 0 == 0⟩, ⟨[2, 2], fun j => j.getD 0 0 == 1⟩,
   "full", [1], 3 / 10⟩

/-- A 4-element 1-D array for the helper-function witnesses. -/
def exList : NDArr ℚ := ⟨[4], fun i => (i.headD 0 : ℚ)⟩

/-! ## List helper lemmas -/

lemma length_foldl_set {β γ : Type} (pos : γ → ℕ) (val : γ → β) (ps : List γ)
    (init : List β) :
    (ps.foldl (fun l a => l.set (pos a) (val a)) init).length = init.length := by
  induction ps generalizing init with
  | nil => rfl
  | cons a as ih => rw [List.foldl_cons, ih, List.length_set]

lemma getD_set_self {β : Type} (l : List β) (i : ℕ) (b d : β) (h : i < l.length) :
    (l.set i b).getD i d = b := by
  induction l generalizing i with
  | nil => simp at h
  | cons x xs ih =>
    cases i with
    | zero => rfl
    | succ n => simpa using ih n (by simpa using h)

lemma getD_set_ne {β : Type} (l : List β) (i j : ℕ) (b d : β) (h : i ≠ j) :
    (l.set i b).getD j d = l.getD j d := by
  induction l generalizing i j with
  | nil => rfl
  | cons x xs ih =>
    cases i with
    | zero =>
      cases j with
      | zero => exact absurd rfl h
      | succ m => rfl
    | succ n =>
      cases j with
      | zero => rfl
      | succ m => simpa using ih n m (fun e => h (by rw [e]))

lemma getD_foldl_set {β : Type} (f : ℕ → β) (ps : List ℕ) (init : List β) (d : β)
    (hps : ∀ a ∈ ps, a < init.length) (p : ℕ) :
    (ps.foldl (fun l a => l.set a (f a)) init).getD p d =
      if p ∈ ps then f p else init.getD p d := by
  induction ps generalizing init with
  | nil => simp
  | cons a as ih =>
    rw [List.foldl_cons,
      ih (init.set a (f a))
        (fun x hx => by
          rw [List.length_set]; exact hps x (List.mem_cons_of_mem _ hx))]
    by_cases hpas : p ∈ as
    · simp [hpas]
    · by_cases hpa : p = a
      · subst hpa
        simp only [hpas, if_false, List.mem_cons, true_or, if_true]
        exact getD_set_self init p (f p) d (hps p (List.mem_cons_self _ _))
      · simp only [hpas, if_false, List.mem_cons, hpa, false_or, if_false]
        exact getD_set_ne init a p (f a) d (fun e => hpa (by rw [e]))

lemma getD_replicate_self {β : Type} (v : β) (n p : ℕ) :
    (List.replicate n v).getD p v = v := by
  induction n generalizing p with
  | zero => rfl
  | succ m ih =>
    cases p with
    | zero => rfl
    | succ q => simp only [List.replicate_succ, List.getD_cons_succ]; exact ih q

lemma getD_map_lt {α β : Type} (f : α → β) (l : List α) (p : ℕ) (d : α) (db : β)
    (h : p < l.length) :
    (l.map f).getD p db = f (l.getD p d) := by
  induction l generalizing p with
  | nil => simp at h
  | cons x xs ih =>
    cases p with
    | zero => rfl
    | succ q => simpa using ih q (by simpa using h)

lemma getD_zipWith_lt {α β γ : Type} (f : α → β → γ) (l1 : List α) (l2 : List β)
    (p : ℕ) (d1 : α) (d2 : β) (d3 : γ) (h1 : p < l1.length) (h2 : p < l2.length) :
    (List.zipWith f l1 l2).getD p d3 = f (l1.getD p d1) (l2.getD p d2) := by
  induction l1 generalizing l2 p with
  | nil => simp at h1
  | cons x xs ih =>
    cases l2 with
    | nil => simp at h2
    | cons y ys =>
      cases p with
      | zero => rfl
      | succ q => simpa using ih ys q (by simpa using h1) (by simpa using h2)

lemma getD_range_map {β : Type} (f : ℕ → β) (n p : ℕ) (d : β) (h : p < n) :
    ((List.range n).map f).getD p d = f p := by
  induction n generalizing f p with
  | zero => simp at h
  | succ m ih =>
    rw [List.range_succ_eq_map, List.map_cons, List.map_map]
    cases p with
    | zero => rfl
    | succ q =>
      rw [List.getD_cons_succ]
      exact ih (fun x => f (Nat.succ x)) q (by omega)

lemma map_congr_mem {α β : Type} (l : List α) (f g : α → β)
    (h : ∀ a ∈ l, f a = g a) : l.map f = l.map g := by
  induction l with
  | nil => rfl
  | cons x xs ih =>
    rw [List.map_cons, List.map_cons, h x (List.mem_cons_self _ _),
      ih (fun a ha => h a (List.mem_cons_of_mem _ ha))]

lemma range_map_getD_self (idx : List ℕ) :
    (List.range idx.length).map (fun p => idx.getD p 0) = idx := by
  induction idx with
  | nil => rfl
  | cons a t ih =>
    rw [List.length_cons, List.range_succ_eq_map, List.map_cons, List.map_map]
    simp only [List.getD_cons_zero]
    congr 1

lemma zip_map_foldl (ps : List ℕ) (f : ℕ → ℕ) (init : List ℕ) :
    ((ps.zip (ps.map f)).foldl (fun l pv => l.set pv.1 pv.2) init) =
      ps.foldl (fun l p => l.set p (f p)) init := by
  induction ps generalizing init with
  | nil => rfl
  | cons a as ih => simpa using ih (init.set a (f a))

lemma mem_foldl_set_const {β γ : Type} (v : β) (pos : γ → ℕ) (ps : List γ)
    (init : List β) (x : β)
    (hx : x ∈ ps.foldl (fun l a => l.set (pos a) v) init) : x ∈ init ∨ x = v := by
  induction ps generalizing init with
  | nil => exact Or.inl hx
  | cons a as ih =>
    rcases ih (init.set (pos a) v) hx with h | h
    · exact (List.mem_or_eq_of_mem_set h).imp_left id
    · exact Or.inr h

lemma zipWith_slLen_id (shape : List ℕ) (sls : List Sl) (hlen : sls.length = shape.length)
    (hels : ∀ s ∈ sls, s = Sl.all ∨ s = Sl.rev) :
    List.zipWith slLen shape sls = shape := by
  induction shape generalizing sls with
  | nil =>
    cases sls with
    | nil => rfl
    | cons s ss => simp at hlen
  | cons n ns ih =>
    cases sls with
    | nil => simp at hlen
    | cons s ss =>
      have hs : slLen n s = n := by
        rcases hels s (List.mem_cons_self _ _) with h | h <;> subst h <;> rfl
      rw [List.zipWith_cons_cons, hs,
        ih ss (by simpa using hlen) (fun x hx => hels x (List.mem_cons_of_mem _ hx))]

lemma inB_iff (shape idx : List ℕ) :
    inB shape idx = true ↔
      idx.length = shape.length ∧ ∀ p < shape.length, idx.getD p 0 < shape.getD p 0 := by
  simp [inB, List.all_eq_true, List.mem_range]

lemma mem_tuples (ns t : List ℕ) :
    t ∈ tuples ns ↔
      t.length = ns.length ∧ ∀ p < ns.length, t.getD p 0 < ns.getD p 0 := by
  induction ns generalizing t with
  | nil =>
    simp only [tuples, List.mem_singleton, List.length_nil]
    constructor
    · rintro rfl
      exact ⟨rfl, fun p hp => absurd hp (by simp)⟩
    · rintro ⟨h, _⟩
      exact List.length_eq_zero.mp h
  | cons n ns ih =>
    simp only [tuples, List.mem_flatten, List.mem_map, List.mem_range]
    constructor
    · rintro ⟨l, ⟨i, hi, rfl⟩, hmem⟩
      obtain ⟨t', ht', rfl⟩ := List.mem_map.mp hmem
      obtain ⟨hlen, hall⟩ := (ih t').mp ht'
      refine ⟨by simp [hlen], ?_⟩
      intro p hp
      cases p with
      | zero => simpa using hi
      | succ q => simpa using hall q (by simpa using hp)
    · rintro ⟨hlen, hall⟩
      cases t with
      | nil => simp at hlen
      | cons a t' =>
        refine ⟨(tuples ns).map (fun u => a :: u), ⟨a, by simpa using hall 0 (by simp), rfl⟩, ?_⟩
        refine List.mem_map.mpr ⟨t', (ih t').mpr ⟨by simpa using hlen, ?_⟩, rfl⟩
        intro p hp
        simpa using hall (p + 1) (by simpa using hp)

lemma foldr_max_zero (l : List ℝ) (h : ∀ x ∈ l, x = 0) : l.foldr max 0 = 0 := by
  induction l with
  | nil => rfl
  | cons x xs ih =>
    rw [List.foldr_cons, h x (List.mem_cons_self _ _),
      ih (fun y hy => h y (List.mem_cons_of_mem _ hy))]
    exact max_self 0

/-! ## Pipeline bridging lemmas -/

lemma outArr_data (g : Args) (idx : List ℕ) : (outArr g).data idx = outVal g idx := rfl

lemma mnxc_ok_elim {g : Args} {res : NDArr ℝ} (h : mnxc g = Except.ok res) :
    res = outArr g := by
  unfold mnxc at h
  split at h
  · exact absurd h (by simp)
  · split at h
    · exact absurd h (by simp)
    · exact (Except.ok.inj h).symm

/-! ## Claim theorems -/

/-- C1: whenever `mnxc` returns a surface, every value of the (real)
surface lies in the interval `[-1, 1]`, and every offset suppressed by
the overlap-ratio rule holds exactly `0`. -/
theorem mnxc_output_range (g : Args) (res : NDArr ℝ) (h : mnxc g = Except.ok res)
    (idx : List ℕ) :
    res.data idx ∈ Set.Icc (-1 : ℝ) 1 ∧
      ((overlapC g).data idx < thresholdAt g idx → res.data idx = 0) := by
  obtain rfl := mnxc_ok_elim h
  rw [outArr_data]
  constructor
  · rw [Set.mem_Icc]
    unfold outVal
    by_cases hc : (overlapC g).data idx < thresholdAt g idx
    · rw [if_pos hc]
      exact ⟨by norm_num, by norm_num⟩
    · rw [if_neg hc]
      exact ⟨le_min (by norm_num) (le_max_left _ _), min_le_left _ _⟩
  · intro hc
    unfold outVal
    rw [if_pos hc]

/-- Witness for C1 at a concrete valid call. -/
theorem mnxc_output_range_witness :
    (outArr exScalar).data [0] ∈ Set.Icc (-1 : ℝ) 1 :=
  (mnxc_output_range exScalar (outArr exScalar) rfl [0]).1

/-- C2: wherever the cropped (and, in `'same'` mode, centered) overlap
count `overlapC` is strictly below `overlap_ratio` times its per-batch
maximum over the transform axes — the threshold being computed from the
counts after the final-shape crop and the centering have been applied —
the returned value is exactly `0`. -/
theorem mnxc_overlap_suppression (g : Args) (res : NDArr ℝ)
    (h : mnxc g = Except.ok res) (idx : List ℕ)
    (hlow : (overlapC g).data idx < g.r * batchMaxQ (overlapC g) (Tpos g) idx) :
    res.data idx = 0 := by
  obtain rfl := mnxc_ok_elim h
  rw [outArr_data]
  unfold outVal thresholdAt
  rw [if_pos hlow]

/-- Witness for C2: a suppressed offset of a concrete valid call. -/
theorem mnxc_overlap_suppression_witness :
    (overlapC exPair).data [0] < exPair.r * batchMaxQ (overlapC exPair) (Tpos exPair) [0] ∧
      (outArr exPair).data [0] = 0 :=
  ⟨by decide, mnxc_overlap_suppression exPair (outArr exPair) rfl [0] (by decide)⟩

/-- C4 (code bug in the source): with the default axes `(-2, -1)`, whose
normalized positions are the last two axes, a pair of images differing in
size only along a transform axis is nevertheless rejected with the
shape-mismatch error, because the shape check subtracts the raw negative
axis values from `set(range(ndim))`, which removes nothing. -/
theorem mnxc_default_axes_shape_check_bug :
    mnxc exBug = Except.error MnxcError.shapeMismatch ∧
      pyIdx (ndim exBug) (-2) = 0 ∧ pyIdx (ndim exBug) (-1) = 1 ∧
      exBug.arr1.shape.getD 0 0 = exBug.arr2.shape.getD 0 0 :=
  ⟨rfl, by decide, by decide, rfl⟩

/-- C5: an unrecognized mode makes `mnxc` return the invalid-argument
error and nothing else; the mode test is the first step of the function,
before any numerical work. -/
theorem mnxc_invalid_mode_error (g : Args)
    (h : ¬(g.mode = "full" ∨ g.mode = "same")) :
    mnxc g = Except.error MnxcError.invalidArgument := by
  unfold mnxc
  rw [if_pos h]

/-- Witness for C5 at a concrete call with an invalid mode string. -/
theorem mnxc_invalid_mode_error_witness :
    mnxc exInvalid = Except.error MnxcError.invalidArgument :=
  mnxc_invalid_mode_error exInvalid (by decide)

/-! ## Slice characterization lemmas -/

lemma getD_replicate_lt {β : Type} (v : β) (n p : ℕ) (d : β) (h : p < n) :
    (List.replicate n v).getD p d = v := by
  induction n generalizing p with
  | zero => omega
  | succ m ih =>
    cases p with
    | zero => rfl
    | succ q =>
      simp only [List.replicate_succ, List.getD_cons_succ]
      exact ih q (by omega)

lemma getD_foldl_set_map {β γ : Type} (h : γ → ℕ) (F : ℕ → β) (ps : List γ)
    (init : List β) (d : β) (hps : ∀ a ∈ ps, h a < init.length) (p : ℕ) :
    (ps.foldl (fun l a => l.set (h a) (F (h a))) init).getD p d =
      if p ∈ ps.map h then F p else init.getD p d := by
  have h2 := getD_foldl_set F (ps.map h) init d
    (fun a ha => by obtain ⟨x, hx, rfl⟩ := List.mem_map.mp ha; exact hps x hx) p
  rwa [List.foldl_map] at h2

lemma flip_shape {α : Type} (arr : NDArr α) (axes : Option (List ℤ)) :
    (_flip arr axes).shape = arr.shape := by
  cases axes with
  | none =>
    exact zipWith_slLen_id _ _ (List.length_replicate _ _)
      (fun s hs => Or.inr (List.eq_of_mem_replicate hs))
  | some as =>
    apply zipWith_slLen_id
    · exact (length_foldl_set (pyIdx arr.shape.length) (fun _ => Sl.rev) as _).trans
        (List.length_replicate _ _)
    · intro s hs
      rcases mem_foldl_set_const Sl.rev (pyIdx arr.shape.length) as _ s hs with h | h
      · exact Or.inl (List.eq_of_mem_replicate h)
      · exact Or.inr h

lemma flip_data_getD {α : Type} (arr : NDArr α) (axes : Option (List ℤ))
    (hax : ∀ p ∈ flipSet arr.shape.length axes, p < arr.shape.length) (idx : List ℕ) :
    (_flip arr axes).data idx =
      arr.data ((List.range arr.shape.length).map (fun p =>
        if p ∈ flipSet arr.shape.length axes then arr.shape.getD p 0 - 1 - idx.getD p 0
        else idx.getD p 0)) := by
  cases axes with
  | none =>
    show arr.data ((List.range (List.replicate arr.shape.length Sl.rev).length).map _) = _
    rw [List.length_replicate]
    congr 1
    apply map_congr_mem
    intro p hp
    have hp2 := List.mem_range.mp hp
    rw [getD_replicate_lt _ _ _ _ hp2, if_pos]
    · rfl
    · exact List.mem_range.mpr hp2
  | some as =>
    show arr.data
      ((List.range (as.foldl (fun sls a => sls.set (pyIdx arr.shape.length a) Sl.rev)
        (List.replicate arr.shape.length Sl.all)).length).map _) = _
    rw [(length_foldl_set (pyIdx arr.shape.length) (fun _ => Sl.rev) as _).trans
      (List.length_replicate _ _)]
    congr 1
    apply map_congr_mem
    intro p hp
    have hp2 := List.mem_range.mp hp
    have hset := getD_foldl_set_map (pyIdx arr.shape.length) (fun _ => Sl.rev) as
      (List.replicate arr.shape.length Sl.all) Sl.all
      (fun a ha => by
        rw [List.length_replicate]
        exact hax (pyIdx arr.shape.length a) (List.mem_map_of_mem _ ha)) p
    rw [hset]
    simp only [flipSet]
    by_cases hmem : p ∈ as.map (pyIdx arr.shape.length)
    · rw [if_pos hmem, if_pos hmem]
      rfl
    · rw [if_neg hmem, if_neg hmem, getD_replicate_lt _ _ _ _ hp2]
      rfl

/-! ## Claim theorems for the helpers -/

/-- C7: the axis-reversal helper preserves the shape and, along exactly
the specified axes (all axes when unspecified), the element at index `i`
of an axis of size `n` comes from index `n - 1 - i` of the input; other
axes are unchanged. -/
theorem flip_spec {α : Type} (arr : NDArr α) (axes : Option (List ℤ))
    (hax : ∀ p ∈ flipSet arr.shape.length axes, p < arr.shape.length) :
    (_flip arr axes).shape = arr.shape ∧
      ∀ idx, (_flip arr axes).data idx =
        arr.data ((List.range arr.shape.length).map (fun p =>
          if p ∈ flipSet arr.shape.length axes then arr.shape.getD p 0 - 1 - idx.getD p 0
          else idx.getD p 0)) :=
  ⟨flip_shape arr axes, fun idx => flip_data_getD arr axes hax idx⟩

/-- Witness for C7: a concrete flip over a negative axis argument. -/
theorem flip_spec_witness :
    (_flip exList (some [-1])).shape = exList.shape ∧
      (_flip exList (some [-1])).data [1] =
        exList.data ((List.range exList.shape.length).map (fun p =>
          if p ∈ flipSet exList.shape.length (some [-1]) then
            exList.shape.getD p 0 - 1 - [1].getD p 0
          else [1].getD p 0)) :=
  ⟨(flip_spec exList (some [-1]) (by decide)).1,
   (flip_spec exList (some [-1]) (by decide)).2 [1]⟩

/-- C10: flipping twice over the same axes gives back the original
array: same shape, and the same value at every in-bounds index (also
with the axes unspecified, which reverses all axes). -/
theorem flip_involution {α : Type} (arr : NDArr α) (axes : Option (List ℤ))
    (hax : ∀ p ∈ flipSet arr.shape.length axes, p < arr.shape.length) :
    (_flip (_flip arr axes) axes).shape = arr.shape ∧
      ∀ idx, inB arr.shape idx = true →
        (_flip (_flip arr axes) axes).data idx = arr.data idx := by
  have hsh := flip_shape arr axes
  constructor
  · rw [flip_shape, hsh]
  · intro idx hib
    obtain ⟨hlen, hbound⟩ := (inB_iff _ _).mp hib
    rw [flip_data_getD (_flip arr axes) axes (by rw [hsh]; exact hax) idx]
    rw [hsh]
    rw [flip_data_getD arr axes hax]
    congr 1
    have step : ∀ p ∈ List.range arr.shape.length,
        (if p ∈ flipSet arr.shape.length axes then
          arr.shape.getD p 0 - 1 -
            (((List.range arr.shape.length).map (fun q =>
              if q ∈ flipSet arr.shape.length axes then
                arr.shape.getD q 0 - 1 - idx.getD q 0
              else idx.getD q 0)).getD p 0)
         else
          ((List.range arr.shape.length).map (fun q =>
            if q ∈ flipSet arr.shape.length axes then
              arr.shape.getD q 0 - 1 - idx.getD q 0
            else idx.getD q 0)).getD p 0) = idx.getD p 0 := by
      intro p hp
      have hp2 := List.mem_range.mp hp
      rw [getD_range_map _ _ _ _ hp2]
      by_cases hmem : p ∈ flipSet arr.shape.length axes
      · rw [if_pos hmem, if_pos hmem]
        have := hbound p hp2
        omega
      · rw [if_neg hmem, if_neg hmem]
    rw [map_congr_mem _ _ _ step, ← hlen, range_map_getD_self]

/-- Witness for C10: a concrete double flip. -/
theorem flip_involution_witness :
    (_flip (_flip exList (some [0])) (some [0])).shape = exList.shape ∧
      (_flip (_flip exList (some [0])) (some [0])).data [2] = exList.data [2] :=
  ⟨(flip_involution exList (some [0]) (by decide)).1,
   (flip_involution exList (some [0]) (by decide)).2 [2] (by decide)⟩

lemma centered_sls_len {α : Type} (arr : NDArr α) (newshape : List ℕ) (axes : List ℤ) :
    (axes.foldl (fun sls a => sls.set (pyIdx arr.shape.length a)
      (centeredSl (arr.shape.getD (pyIdx arr.shape.length a) 0)
        (newshape.getD (pyIdx arr.shape.length a) 0)))
      (List.replicate arr.shape.length Sl.all)).length = arr.shape.length :=
  (length_foldl_set (pyIdx arr.shape.length) _ axes _).trans (List.length_replicate _ _)

lemma centered_sls_getD {α : Type} (arr : NDArr α) (newshape : List ℕ) (axes : List ℤ)
    (hax : ∀ a ∈ axes, pyIdx arr.shape.length a < arr.shape.length) (p : ℕ) :
    ((axes.foldl (fun sls a => sls.set (pyIdx arr.shape.length a)
      (centeredSl (arr.shape.getD (pyIdx arr.shape.length a) 0)
        (newshape.getD (pyIdx arr.shape.length a) 0)))
      (List.replicate arr.shape.length Sl.all)).getD p Sl.all) =
      if p ∈ axes.map (pyIdx arr.shape.length) then
        centeredSl (arr.shape.getD p 0) (newshape.getD p 0)
      else Sl.all := by
  have h2 := getD_foldl_set_map (pyIdx arr.shape.length)
    (fun q => centeredSl (arr.shape.getD q 0) (newshape.getD q 0)) axes
    (List.replicate arr.shape.length Sl.all) Sl.all
    (fun a ha => by rw [List.length_replicate]; exact hax a ha) p
  rw [h2, getD_replicate_self]

lemma centered_shape_length {α : Type} (arr : NDArr α) (newshape : List ℕ)
    (axes : List ℤ) :
    (_centered arr newshape axes).shape.length = arr.shape.length := by
  simp only [_centered, applySl]
  rw [List.length_zipWith, centered_sls_len arr newshape axes, Nat.min_self]

lemma centered_shape_getD {α : Type} (arr : NDArr α) (newshape : List ℕ) (axes : List ℤ)
    (hax : ∀ a ∈ axes, pyIdx arr.shape.length a < arr.shape.length)
    (hle : ∀ p ∈ axes.map (pyIdx arr.shape.length),
      newshape.getD p 0 ≤ arr.shape.getD p 0)
    (p : ℕ) (hp : p < arr.shape.length) :
    (_centered arr newshape axes).shape.getD p 0 =
      if p ∈ axes.map (pyIdx arr.shape.length) then newshape.getD p 0
      else arr.shape.getD p 0 := by
  simp only [_centered, applySl]
  rw [getD_zipWith_lt slLen arr.shape _ p 0 Sl.all 0 hp
      (by rw [centered_sls_len arr newshape axes]; exact hp),
    centered_sls_getD arr newshape axes hax p]
  by_cases hmem : p ∈ axes.map (pyIdx arr.shape.length)
  · rw [if_pos hmem, if_pos hmem]
    have h1 := hle p hmem
    have h2 := Nat.div_le_self (arr.shape.getD p 0 - newshape.getD p 0) 2
    show min ((arr.shape.getD p 0 - newshape.getD p 0) / 2 + newshape.getD p 0)
        (arr.shape.getD p 0) - (arr.shape.getD p 0 - newshape.getD p 0) / 2 =
      newshape.getD p 0
    omega
  · rw [if_neg hmem, if_neg hmem]
    rfl

lemma centered_data_getD {α : Type} (arr : NDArr α) (newshape : List ℕ) (axes : List ℤ)
    (hax : ∀ a ∈ axes, pyIdx arr.shape.length a < arr.shape.length) (idx : List ℕ) :
    (_centered arr newshape axes).data idx =
      arr.data ((List.range arr.shape.length).map (fun p =>
        if p ∈ axes.map (pyIdx arr.shape.length) then
          (arr.shape.getD p 0 - newshape.getD p 0) / 2 + idx.getD p 0
        else idx.getD p 0)) := by
  simp only [_centered, applySl]
  rw [centered_sls_len arr newshape axes]
  congr 1
  apply map_congr_mem
  intro p hp
  rw [centered_sls_getD arr newshape axes hax p]
  by_cases hmem : p ∈ axes.map (pyIdx arr.shape.length)
  · rw [if_pos hmem, if_pos hmem]
    rfl
  · rw [if_neg hmem, if_neg hmem]
    rfl

/-- C6: the center crop has, along each specified axis, extent equal to
the target and reads the source starting at offset
`(current - target) / 2` (floor division), while axes not in the given
set keep their full extent and are read unshifted. -/
theorem centered_spec {α : Type} (arr : NDArr α) (newshape : List ℕ) (axes : List ℤ)
    (hax : ∀ a ∈ axes, pyIdx arr.shape.length a < arr.shape.length)
    (hle : ∀ p ∈ axes.map (pyIdx arr.shape.length),
      newshape.getD p 0 ≤ arr.shape.getD p 0) :
    ((_centered arr newshape axes).shape.length = arr.shape.length ∧
      ∀ p < arr.shape.length,
        (_centered arr newshape axes).shape.getD p 0 =
          if p ∈ axes.map (pyIdx arr.shape.length) then newshape.getD p 0
          else arr.shape.getD p 0) ∧
    ∀ idx, (_centered arr newshape axes).data idx =
      arr.data ((List.range arr.shape.length).map (fun p =>
        if p ∈ axes.map (pyIdx arr.shape.length) then
          (arr.shape.getD p 0 - newshape.getD p 0) / 2 + idx.getD p 0
        else idx.getD p 0)) :=
  ⟨⟨centered_shape_length arr newshape axes,
    fun p hp => centered_shape_getD arr newshape axes hax hle p hp⟩,
   fun idx => centered_data_getD arr newshape axes hax idx⟩

/-! ## Disjoint-mask and zero-output lemmas -/

lemma getD_mem {β : Type} (l : List β) (p : ℕ) (d : β) (h : p < l.length) :
    l.getD p d ∈ l := by
  induction l generalizing p with
  | nil => simp at h
  | cons x xs ih =>
    cases p with
    | zero => exact List.mem_cons_self _ _
    | succ q => exact List.mem_cons_of_mem _ (ih q (by simpa using h))

lemma applySl_keep_data_mem {α : Type} (a : NDArr α) (sls : List Sl)
    (hlen : sls.length = a.shape.length)
    (hels : ∀ s ∈ sls, s = Sl.all ∨ s = Sl.rev)
    (u : List ℕ) (hu : inB (applySl a sls).shape u = true) :
    ∃ v, inB a.shape v = true ∧ (applySl a sls).data u = a.data v := by
  refine ⟨(List.range sls.length).map
    (fun p => slIdx (a.shape.getD p 0) (sls.getD p Sl.all) (u.getD p 0)), ?_, rfl⟩
  have hsh : (applySl a sls).shape = a.shape := zipWith_slLen_id _ _ hlen hels
  rw [hsh] at hu
  obtain ⟨hl, hb⟩ := (inB_iff _ _).mp hu
  apply (inB_iff _ _).mpr
  constructor
  · rw [List.length_map, List.length_range, hlen]
  · intro p hp
    rw [getD_range_map _ _ _ _ (by rw [hlen]; exact hp)]
    have hub := hb p hp
    have hmem : sls.getD p Sl.all ∈ sls := getD_mem sls p Sl.all (by rw [hlen]; exact hp)
    rcases hels _ hmem with hs | hs <;> rw [hs]
    · exact hub
    · show a.shape.getD p 0 - 1 - u.getD p 0 < a.shape.getD p 0
      omega

lemma flip_data_mem {α : Type} (a : NDArr α) (ax : Option (List ℤ)) (u : List ℕ)
    (hu : inB (_flip a ax).shape u = true) :
    ∃ v, inB a.shape v = true ∧ (_flip a ax).data u = a.data v := by
  cases ax with
  | none =>
    exact applySl_keep_data_mem a (List.replicate a.shape.length Sl.rev)
      (List.length_replicate _ _) (fun s hs => Or.inr (List.eq_of_mem_replicate hs)) u hu
  | some as =>
    refine applySl_keep_data_mem a _ ?_ ?_ u hu
    · exact (length_foldl_set (pyIdx a.shape.length) (fun _ => Sl.rev) as _).trans
        (List.length_replicate _ _)
    · intro s hs
      rcases mem_foldl_set_const Sl.rev (pyIdx a.shape.length) as _ s hs with h | h
      · exact Or.inl (List.eq_of_mem_replicate h)
      · exact Or.inr h

lemma getD_foldl_set_not_mem {β γ : Type} (h : γ → ℕ) (F : ℕ → β) (ps : List γ)
    (init : List β) (d : β) (p : ℕ) (hp : ∀ a ∈ ps, h a ≠ p) :
    (ps.foldl (fun l a => l.set (h a) (F (h a))) init).getD p d = init.getD p d := by
  induction ps generalizing init with
  | nil => rfl
  | cons a as ih =>
    rw [List.foldl_cons, ih _ (fun x hx => hp x (List.mem_cons_of_mem _ hx)),
      getD_set_ne init (h a) p _ d (hp a (List.mem_cons_self _ _))]

lemma getD_setMany_not_mem (idx T vs : List ℕ) (p d : ℕ) (hp : p ∉ T) :
    (setMany idx T vs).getD p d = idx.getD p d := by
  induction T generalizing idx vs with
  | nil => rfl
  | cons t T' ih =>
    cases vs with
    | nil => rfl
    | cons v vs' =>
      calc (setMany idx (t :: T') (v :: vs')).getD p d
          = (setMany (idx.set t v) T' vs').getD p d := rfl
        _ = (idx.set t v).getD p d :=
            ih (idx.set t v) vs' (fun hmem => hp (List.mem_cons_of_mem _ hmem))
        _ = idx.getD p d :=
            getD_set_ne idx t p v d (fun he => hp (he ▸ List.mem_cons_self _ _))

lemma flip_data_mem_batch {α : Type} (a : NDArr α) (as : List ℤ) (u : List ℕ)
    (hu : inB (_flip a (some as)).shape u = true) :
    ∃ v, inB a.shape v = true ∧ (_flip a (some as)).data u = a.data v ∧
      ∀ p, p < a.shape.length → p ∉ as.map (pyIdx a.shape.length) →
        v.getD p 0 = u.getD p 0 := by
  have hlen : (as.foldl (fun sls x => sls.set (pyIdx a.shape.length x) Sl.rev)
      (List.replicate a.shape.length Sl.all)).length = a.shape.length :=
    (length_foldl_set (pyIdx a.shape.length) (fun _ => Sl.rev) as _).trans
      (List.length_replicate _ _)
  have hels : ∀ s ∈ as.foldl (fun sls x => sls.set (pyIdx a.shape.length x) Sl.rev)
      (List.replicate a.shape.length Sl.all), s = Sl.all ∨ s = Sl.rev := by
    intro s hs
    rcases mem_foldl_set_const Sl.rev (pyIdx a.shape.length) as _ s hs with h | h
    · exact Or.inl (List.eq_of_mem_replicate h)
    · exact Or.inr h
  refine ⟨_, ?_, rfl, ?_⟩
  · have hsh : (_flip a (some as)).shape = a.shape := flip_shape a (some as)
    rw [hsh] at hu
    obtain ⟨hl, hb⟩ := (inB_iff _ _).mp hu
    apply (inB_iff _ _).mpr
    constructor
    · rw [List.length_map, List.length_range, hlen]
    · intro p hp
      rw [getD_range_map _ _ _ _ (by rw [hlen]; exact hp)]
      have hub := hb p hp
      have hmem : (as.foldl (fun sls x => sls.set (pyIdx a.shape.length x) Sl.rev)
          (List.replicate a.shape.length Sl.all)).getD p Sl.all ∈ _ :=
        getD_mem _ p Sl.all (by rw [hlen]; exact hp)
      rcases hels _ hmem with hs | hs <;> rw [hs]
      · exact hub
      · show a.shape.getD p 0 - 1 - u.getD p 0 < a.shape.getD p 0
        omega
  · intro p hp hnot
    rw [getD_range_map _ _ _ _ (by rw [hlen]; exact hp)]
    have hsl : (as.foldl (fun sls x => sls.set (pyIdx a.shape.length x) Sl.rev)
        (List.replicate a.shape.length Sl.all)).getD p Sl.all = Sl.all := by
      rw [getD_foldl_set_not_mem (pyIdx a.shape.length) (fun _ => Sl.rev) as _ Sl.all p
          (fun x hx he => hnot (List.mem_map.mpr ⟨x, hx, he⟩)),
        getD_replicate_self]
    rw [hsl]
    rfl

lemma conv_batch_zero_left (g : Args) (A B : NDArr ℚ)
    (hdisj : ∀ i j, inB g.m1.shape i = true → inB g.m2.shape j = true →
      (∀ p, p < ndim g → p ∉ Tpos g → i.getD p 0 = j.getD p 0) →
      ¬(g.m1.data i = true ∧ g.m2.data j = true))
    (hA : ∀ u, inB A.shape u = true → A.data u ≠ 0 →
      ∃ v, inB g.m2.shape v = true ∧ g.m2.data v = true ∧
        ∀ p, p < ndim g → p ∉ Tpos g → v.getD p 0 = u.getD p 0)
    (hB : ∀ w, inB B.shape w = true → B.data w ≠ 0 →
      inB g.m1.shape w = true ∧ g.m1.data w = true)
    (idx : List ℕ) :
    (convFFT (Tpos g) (fastShape g) A B).data idx = 0 := by
  apply List.sum_eq_zero
  intro x hx
  obtain ⟨j, hj, rfl⟩ := List.mem_map.mp hx
  by_cases hu : inB A.shape (setMany idx (Tpos g) j) = true
  · by_cases hw : inB B.shape (setMany idx (Tpos g)
        (List.zipWith (fun kf jv => (kf.1 + kf.2 - jv) % kf.2)
          ((getMany idx (Tpos g)).zip (fastShape g)) j)) = true
    · by_cases hAd : A.data (setMany idx (Tpos g) j) = 0
      · show getPad A _ * getPad B _ = 0
        unfold getPad
        rw [if_pos hu, hAd, zero_mul]
      · by_cases hBd : B.data (setMany idx (Tpos g)
            (List.zipWith (fun kf jv => (kf.1 + kf.2 - jv) % kf.2)
              ((getMany idx (Tpos g)).zip (fastShape g)) j)) = 0
        · show getPad A _ * getPad B _ = 0
          unfold getPad
          rw [if_pos hw, hBd, mul_zero]
        · exfalso
          obtain ⟨v, hv2, hv2d, hvagree⟩ := hA _ hu hAd
          obtain ⟨hw1, hw1d⟩ := hB _ hw hBd
          refine hdisj _ v hw1 hv2 ?_ ⟨hw1d, hv2d⟩
          intro p hp hpT
          rw [hvagree p hp hpT, getD_setMany_not_mem idx (Tpos g) j p 0 hpT,
            getD_setMany_not_mem idx (Tpos g) _ p 0 hpT]
    · show getPad A _ * getPad B _ = 0
      unfold getPad
      rw [if_neg hw, mul_zero]
  · show getPad A _ * getPad B _ = 0
    unfold getPad
    rw [if_neg hu, zero_mul]

lemma conv_batch_zero_right (g : Args) (A B : NDArr ℚ)
    (hdisj : ∀ i j, inB g.m1.shape i = true → inB g.m2.shape j = true →
      (∀ p, p < ndim g → p ∉ Tpos g → i.getD p 0 = j.getD p 0) →
      ¬(g.m1.data i = true ∧ g.m2.data j = true))
    (hA : ∀ u, inB A.shape u = true → A.data u ≠ 0 →
      inB g.m1.shape u = true ∧ g.m1.data u = true)
    (hB : ∀ w, inB B.shape w = true → B.data w ≠ 0 →
      ∃ v, inB g.m2.shape v = true ∧ g.m2.data v = true ∧
        ∀ p, p < ndim g → p ∉ Tpos g → v.getD p 0 = w.getD p 0)
    (idx : List ℕ) :
    (convFFT (Tpos g) (fastShape g) A B).data idx = 0 := by
  apply List.sum_eq_zero
  intro x hx
  obtain ⟨j, hj, rfl⟩ := List.mem_map.mp hx
  by_cases hu : inB A.shape (setMany idx (Tpos g) j) = true
  · by_cases hw : inB B.shape (setMany idx (Tpos g)
        (List.zipWith (fun kf jv => (kf.1 + kf.2 - jv) % kf.2)
          ((getMany idx (Tpos g)).zip (fastShape g)) j)) = true
    · by_cases hAd : A.data (setMany idx (Tpos g) j) = 0
      · show getPad A _ * getPad B _ = 0
        unfold getPad
        rw [if_pos hu, hAd, zero_mul]
      · by_cases hBd : B.data (setMany idx (Tpos g)
            (List.zipWith (fun kf jv => (kf.1 + kf.2 - jv) % kf.2)
              ((getMany idx (Tpos g)).zip (fastShape g)) j)) = 0
        · show getPad A _ * getPad B _ = 0
          unfold getPad
          rw [if_pos hw, hBd, mul_zero]
        · exfalso
          obtain ⟨hu1, hu1d⟩ := hA _ hu hAd
          obtain ⟨v, hv2, hv2d, hvagree⟩ := hB _ hw hBd
          refine hdisj _ v hu1 hv2 ?_ ⟨hu1d, hv2d⟩
          intro p hp hpT
          rw [hvagree p hp hpT, getD_setMany_not_mem idx (Tpos g) j p 0 hpT,
            getD_setMany_not_mem idx (Tpos g) _ p 0 hpT]
    · show getPad A _ * getPad B _ = 0
      unfold getPad
      rw [if_neg hw, mul_zero]
  · show getPad A _ * getPad B _ = 0
    unfold getPad
    rw [if_neg hu, zero_mul]

lemma npRound_zero : npRound 0 = 0 := by
  unfold npRound
  norm_num

lemma eps_nonneg : (0 : ℚ) ≤ eps := by
  unfold eps
  positivity

lemma sameCenter_cropFinal_zero (g : Args) (X : NDArr ℚ) (hX : ∀ i, X.data i = 0)
    (idx : List ℕ) : (sameCenter g (cropFinal g X)).data idx = 0 := by
  unfold sameCenter
  by_cases hm : g.mode = "same"
  · rw [if_pos hm]
    exact hX _
  · rw [if_neg hm]
    exact hX _

lemma outArr_data_eq_zero (g : Args) (idx : List ℕ)
    (hidx : (denomSqC g).data idx = 0)
    (hall : ∀ t ∈ tuples (getMany (denomSqC g).shape (Tpos g)),
      (denomSqC g).data (setMany idx (Tpos g) t) = 0) :
    outVal g idx = 0 := by
  have hd : (denomC g).data idx = 0 := by
    show Real.sqrt (((denomSqC g).data idx : ℚ) : ℝ) = 0
    rw [hidx]
    simp
  have hmax : batchMaxAbs (denomC g) (Tpos g) idx = 0 := by
    apply foldr_max_zero
    intro x hx
    obtain ⟨t, ht, rfl⟩ := List.mem_map.mp hx
    have h0 : (denomC g).data (setMany idx (Tpos g) t) = 0 := by
      show Real.sqrt (((denomSqC g).data (setMany idx (Tpos g) t) : ℚ) : ℝ) = 0
      rw [hall t ht]
      simp
    rw [h0, abs_zero]
  have hcond : ¬ (tolAt g idx < (denomC g).data idx) := by
    rw [hd]
    unfold tolAt
    rw [hmax, mul_zero]
    exact lt_irrefl 0
  unfold outVal
  rw [if_neg hcond]
  have hclip : min (1 : ℝ) (max (-1) 0) = 0 := by norm_num
  rw [hclip, ite_self]

/-- C9: for disjoint masks — no offset pairs a fixed-mask-valid position
with a moving-mask-valid position, where paired positions share their
coordinates along the non-transform (batch) axes — every overlap count
is clamped to the machine-epsilon floor, and the returned surface is
identically zero. -/
theorem mnxc_disjoint_masks_zero (g : Args) (res : NDArr ℝ)
    (h : mnxc g = Except.ok res)
    (hrank : g.arr2.shape.length = ndim g)
    (hm1 : g.m1.shape = g.arr1.shape) (hm2 : g.m2.shape = g.arr2.shape)
    (hdisj : ∀ i j, inB g.m1.shape i = true → inB g.m2.shape j = true →
      (∀ p, p < ndim g → p ∉ Tpos g → i.getD p 0 = j.getD p 0) →
      ¬(g.m1.data i = true ∧ g.m2.data j = true)) :
    (∀ idx, (numberOverlapMaskedPx g).data idx = eps) ∧
      ∀ idx, res.data idx = 0 := by
  obtain rfl := mnxc_ok_elim h
  have hlenM : (movingMaskQ g).shape.length = ndim g := by
    show g.m2.shape.length = ndim g
    rw [hm2]
    exact hrank
  have hTeqM : g.axes.map (pyIdx (movingMaskQ g).shape.length) = Tpos g := by
    show g.axes.map (pyIdx (movingMaskQ g).shape.length) = g.axes.map (pyIdx (ndim g))
    rw [hlenM]
  have hlenI : (movingImage g).shape.length = ndim g := by
    show g.arr2.shape.length = ndim g
    exact hrank
  have hTeqI : g.axes.map (pyIdx (movingImage g).shape.length) = Tpos g := by
    show g.axes.map (pyIdx (movingImage g).shape.length) = g.axes.map (pyIdx (ndim g))
    rw [hlenI]
  -- the four kinds of operand arrays only carry values where their mask
  -- holds, at a position sharing the batch coordinates of the read index
  have hMask1 : ∀ w, inB (fixedMaskQ g).shape w = true → (fixedMaskQ g).data w ≠ 0 →
      inB g.m1.shape w = true ∧ g.m1.data w = true := by
    intro w hw hne
    refine ⟨hw, ?_⟩
    by_cases hb : g.m1.data w = true
    · exact hb
    · exact absurd (show (if g.m1.data w then (1 : ℚ) else 0) = 0 by rw [if_neg hb]) hne
  have hFix : ∀ w, inB (fixedImage g).shape w = true → (fixedImage g).data w ≠ 0 →
      inB g.m1.shape w = true ∧ g.m1.data w = true := by
    intro w hw hne
    refine ⟨by rw [hm1]; exact hw, ?_⟩
    by_cases hb : g.m1.data w = true
    · exact hb
    · exact absurd (show (if g.m1.data w then g.arr1.data w else 0) = 0 by rw [if_neg hb]) hne
  have hFixSq : ∀ w, inB (squareArr (fixedImage g)).shape w = true →
      (squareArr (fixedImage g)).data w ≠ 0 →
      inB g.m1.shape w = true ∧ g.m1.data w = true := by
    intro w hw hne
    apply hFix w hw
    intro h0
    exact hne (show (fixedImage g).data w * (fixedImage g).data w = 0 by rw [h0, mul_zero])
  have hRotMask : ∀ u, inB (rotatedMovingMask g).shape u = true →
      (rotatedMovingMask g).data u ≠ 0 →
      ∃ v, inB g.m2.shape v = true ∧ g.m2.data v = true ∧
        ∀ p, p < ndim g → p ∉ Tpos g → v.getD p 0 = u.getD p 0 := by
    intro u hu hne
    obtain ⟨v, hv, hdata, hagree⟩ := flip_data_mem_batch (movingMaskQ g) g.axes u hu
    have hdata2 : (rotatedMovingMask g).data u = (movingMaskQ g).data v := hdata
    rw [hdata2] at hne
    refine ⟨v, hv, ?_, ?_⟩
    · by_cases hb : g.m2.data v = true
      · exact hb
      · exact absurd (show (if g.m2.data v then (1 : ℚ) else 0) = 0 by rw [if_neg hb]) hne
    · intro p hp hpT
      refine hagree p ?_ ?_
      · rw [hlenM]
        exact hp
      · rw [hTeqM]
        exact hpT
  have hRotImg : ∀ u, inB (rotatedMovingImage g).shape u = true →
      (rotatedMovingImage g).data u ≠ 0 →
      ∃ v, inB g.m2.shape v = true ∧ g.m2.data v = true ∧
        ∀ p, p < ndim g → p ∉ Tpos g → v.getD p 0 = u.getD p 0 := by
    intro u hu hne
    obtain ⟨v, hv, hdata, hagree⟩ := flip_data_mem_batch (movingImage g) g.axes u hu
    have hdata2 : (rotatedMovingImage g).data u = (movingImage g).data v := hdata
    rw [hdata2] at hne
    refine ⟨v, by rw [hm2]; exact hv, ?_, ?_⟩
    · by_cases hb : g.m2.data v = true
      · exact hb
      · exact absurd (show (if g.m2.data v then g.arr2.data v else 0) = 0 by rw [if_neg hb]) hne
    · intro p hp hpT
      refine hagree p ?_ ?_
      · rw [hlenI]
        exact hp
      · rw [hTeqI]
        exact hpT
  have hRotImgSq : ∀ u, inB (squareArr (rotatedMovingImage g)).shape u = true →
      (squareArr (rotatedMovingImage g)).data u ≠ 0 →
      ∃ v, inB g.m2.shape v = true ∧ g.m2.data v = true ∧
        ∀ p, p < ndim g → p ∉ Tpos g → v.getD p 0 = u.getD p 0 := by
    intro u hu hne
    apply hRotImg u hu
    intro h0
    exact hne (show (rotatedMovingImage g).data u * (rotatedMovingImage g).data u = 0 by
      rw [h0, mul_zero])
  -- all six correlation integrals vanish
  have hc1 : ∀ idx, (numberOverlapRaw g).data idx = 0 :=
    conv_batch_zero_left g (rotatedMovingMask g) (fixedMaskQ g) hdisj hRotMask hMask1
  have hc2 : ∀ idx, (corr g (rotatedMovingImage g) (fixedImage g)).data idx = 0 :=
    conv_batch_zero_left g (rotatedMovingImage g) (fixedImage g) hdisj hRotImg hFix
  have hc3 : ∀ idx, (maskedCorrelatedFixed g).data idx = 0 :=
    conv_batch_zero_left g (rotatedMovingMask g) (fixedImage g) hdisj hRotMask hFix
  have hc4 : ∀ idx, (maskedCorrelatedRotatedMoving g).data idx = 0 :=
    conv_batch_zero_right g (fixedMaskQ g) (rotatedMovingImage g) hdisj hMask1 hRotImg
  have hc5 : ∀ idx, (corr g (rotatedMovingMask g) (squareArr (fixedImage g))).data idx = 0 :=
    conv_batch_zero_left g (rotatedMovingMask g) (squareArr (fixedImage g)) hdisj
      hRotMask hFixSq
  have hc6 : ∀ idx, (corr g (fixedMaskQ g) (squareArr (rotatedMovingImage g))).data idx = 0 :=
    conv_batch_zero_right g (fixedMaskQ g) (squareArr (rotatedMovingImage g)) hdisj
      hMask1 hRotImgSq
  have hovl : ∀ idx, (numberOverlapMaskedPx g).data idx = eps := by
    intro idx
    show max (npRound ((numberOverlapRaw g).data idx)) eps = eps
    rw [hc1 idx, npRound_zero]
    exact max_eq_right eps_nonneg
  have hnum : ∀ idx, (numeratorArr g).data idx = 0 := by
    intro idx
    show (corr g (rotatedMovingImage g) (fixedImage g)).data idx -
      (maskedCorrelatedFixed g).data idx * (maskedCorrelatedRotatedMoving g).data idx /
        (numberOverlapMaskedPx g).data idx = 0
    rw [hc2 idx, hc3 idx, hc4 idx]
    simp
  have hfd : ∀ idx, (fixedDenom g).data idx = 0 := by
    intro idx
    show max ((corr g (rotatedMovingMask g) (squareArr (fixedImage g))).data idx -
      (maskedCorrelatedFixed g).data idx * (maskedCorrelatedFixed g).data idx /
        (numberOverlapMaskedPx g).data idx) 0 = 0
    rw [hc5 idx, hc3 idx]
    simp
  have hmd : ∀ idx, (movingDenom g).data idx = 0 := by
    intro idx
    show max ((corr g (fixedMaskQ g) (squareArr (rotatedMovingImage g))).data idx -
      (maskedCorrelatedRotatedMoving g).data idx *
        (maskedCorrelatedRotatedMoving g).data idx /
        (numberOverlapMaskedPx g).data idx) 0 = 0
    rw [hc6 idx, hc4 idx]
    simp
  have hdsq : ∀ idx, (denomSq g).data idx = 0 := by
    intro idx
    show (fixedDenom g).data idx * (movingDenom g).data idx = 0
    rw [hfd idx, zero_mul]
  have hdsqC : ∀ idx, (denomSqC g).data idx = 0 :=
    fun idx => sameCenter_cropFinal_zero g (denomSq g) hdsq idx
  refine ⟨hovl, ?_⟩
  intro idx
  rw [outArr_data]
  exact outArr_data_eq_zero g idx (hdsqC idx) (fun t _ => hdsqC _)

/-- Witness for C9: a batch-wise disjoint concrete pair — the fixed mask
is valid only in batch row 0, the moving mask only in batch row 1, and
the correlation runs along axis 1, so no offset pairs valid positions. -/
theorem mnxc_disjoint_masks_zero_witness :
    (numberOverlapMaskedPx exBatchDisjoint).data [0, 0] = eps ∧
      (outArr exBatchDisjoint).data [0, 0] = 0 :=
  ⟨(mnxc_disjoint_masks_zero exBatchDisjoint (outArr exBatchDisjoint) rfl rfl rfl rfl
      (fun i j _ _ hagree hc => by
        have hb1 : (i.getD 0 0 == 0) = true := hc.1
        have hb2 : (j.getD 0 0 == 1) = true := hc.2
        have h1 : i.getD 0 0 = 0 := by simpa using hb1
        have h2 : j.getD 0 0 = 1 := by simpa using hb2
        have h3 := hagree 0 (by decide) (by decide)
        omega)).1 [0, 0],
   (mnxc_disjoint_masks_zero exBatchDisjoint (outArr exBatchDisjoint) rfl rfl rfl rfl
      (fun i j _ _ hagree hc => by
        have hb1 : (i.getD 0 0 == 0) = true := hc.1
        have hb2 : (j.getD 0 0 == 1) = true := hc.2
        have h1 : i.getD 0 0 = 0 := by simpa using hb1
        have h2 : j.getD 0 0 = 1 := by simpa using hb2
        have h3 := hagree 0 (by decide) (by decide)
        omega)).2 [0, 0]⟩

/-! ## Shape-law lemmas -/

lemma le_nextFastLen (n : ℕ) : n ≤ nextFastLen n := by
  unfold nextFastLen
  split
  · next m hm =>
    have h2 := List.find?_some hm
    rw [Bool.and_eq_true, decide_eq_true_eq] at h2
    exact h2.1
  · exact le_refl n

lemma pyIdx_natCast (n p : ℕ) : pyIdx n (p : ℤ) = p := by
  unfold pyIdx
  rw [if_neg (by omega), Int.toNat_natCast]

lemma mnxc_ok_check {g : Args} {res : NDArr ℝ} (h : mnxc g = Except.ok res) :
    ∀ ax < ndim g, ((ax : ℤ) ∉ g.axes) →
      g.arr1.shape.getD ax 0 = g.arr2.shape.getD ax 0 := by
  intro ax haxlt hnotin
  unfold mnxc at h
  split at h
  · exact absurd h (by simp)
  · split at h
    · exact absurd h (by simp)
    · rename_i hcheck
      by_contra hne
      apply hcheck
      rw [List.any_eq_true]
      refine ⟨ax, List.mem_range.mpr haxlt, ?_⟩
      rw [Bool.and_eq_true, decide_eq_true_eq, decide_eq_true_eq]
      exact ⟨hnotin, hne⟩

/-- C3: whenever `mnxc` returns a surface, its extent along each
transform axis is `size_fixed + size_moving - 1` in `'full'` mode and
`size_fixed` in `'same'` mode, and along every other axis it is the
common input extent. -/
theorem mnxc_output_shape (g : Args) (res : NDArr ℝ) (h : mnxc g = Except.ok res)
    (hrank : g.arr2.shape.length = ndim g)
    (hmask2 : g.m2.shape = g.arr2.shape)
    (hax : ∀ p ∈ Tpos g, p < ndim g)
    (hpos2 : ∀ p ∈ Tpos g, 0 < g.arr2.shape.getD p 0) :
    res.shape.length = ndim g ∧
      ∀ p < ndim g,
        res.shape.getD p 0 =
          if g.mode = "same" then g.arr1.shape.getD p 0
          else if p ∈ Tpos g then
            g.arr1.shape.getD p 0 + g.arr2.shape.getD p 0 - 1
          else g.arr1.shape.getD p 0 := by
  have hcheck := mnxc_ok_check h
  obtain rfl := mnxc_ok_elim h
  have hfinal_len : (finalShape g).length = ndim g :=
    length_foldl_set (fun p => p)
      (fun p => g.arr1.shape.getD p 0 + g.arr2.shape.getD p 0 - 1) (Tpos g) g.arr1.shape
  have hfinal_getD : ∀ p, p < ndim g →
      (finalShape g).getD p 0 =
        if p ∈ Tpos g then g.arr1.shape.getD p 0 + g.arr2.shape.getD p 0 - 1
        else g.arr1.shape.getD p 0 := by
    intro p hp
    exact getD_foldl_set (fun q => g.arr1.shape.getD q 0 + g.arr2.shape.getD q 0 - 1)
      (Tpos g) g.arr1.shape 0 (fun a ha => hax a ha) p
  have hrm : (rotatedMovingMask g).shape = g.m2.shape :=
    flip_shape (movingMaskQ g) (some g.axes)
  have hs2len : g.m2.shape.length = ndim g := by rw [hmask2]; exact hrank
  have hchain : (denomSq g).shape =
      (Tpos g).foldl (fun l p => l.set p (nextFastLen ((finalShape g).getD p 0)))
        g.m2.shape := by
    show (((Tpos g).zip (fastShape g)).foldl (fun s pf => s.set pf.1 pf.2)
      (rotatedMovingMask g).shape) = _
    rw [hrm]
    show (((Tpos g).zip ((Tpos g).map
        (fun p => nextFastLen ((finalShape g).getD p 0)))).foldl
      (fun s pf => s.set pf.1 pf.2) g.m2.shape) = _
    exact zip_map_foldl (Tpos g) _ g.m2.shape
  have hconv_len : (denomSq g).shape.length = ndim g := by
    rw [hchain]
    exact (length_foldl_set (fun p => p)
      (fun p => nextFastLen ((finalShape g).getD p 0)) (Tpos g) g.m2.shape).trans hs2len
  have hconv_getD : ∀ p, p < ndim g →
      (denomSq g).shape.getD p 0 =
        if p ∈ Tpos g then nextFastLen ((finalShape g).getD p 0)
        else g.arr2.shape.getD p 0 := by
    intro p hp
    rw [hchain]
    have h2 := getD_foldl_set (fun q => nextFastLen ((finalShape g).getD q 0)) (Tpos g)
      g.m2.shape 0 (fun a ha => by rw [hs2len]; exact hax a ha) p
    rw [h2, hmask2]
  have hcrop_len : (cropFinal g (denomSq g)).shape.length = ndim g := by
    show (List.zipWith slLen (denomSq g).shape
      ((finalShape g).map (fun sz => Sl.range 0 sz))).length = ndim g
    rw [List.length_zipWith, hconv_len, List.length_map, hfinal_len, Nat.min_self]
  have hnotin_of_not_mem : ∀ p : ℕ, p ∉ Tpos g → ((p : ℤ) ∉ g.axes) := by
    intro p hp hin
    exact hp (List.mem_map.mpr ⟨(p : ℤ), hin, pyIdx_natCast (ndim g) p⟩)
  have hcrop_getD : ∀ p, p < ndim g →
      (cropFinal g (denomSq g)).shape.getD p 0 =
        if p ∈ Tpos g then g.arr1.shape.getD p 0 + g.arr2.shape.getD p 0 - 1
        else g.arr1.shape.getD p 0 := by
    intro p hp
    show (List.zipWith slLen (denomSq g).shape
      ((finalShape g).map (fun sz => Sl.range 0 sz))).getD p 0 = _
    rw [getD_zipWith_lt slLen (denomSq g).shape _ p 0 Sl.all 0
        (by rw [hconv_len]; exact hp)
        (by rw [List.length_map, hfinal_len]; exact hp),
      getD_map_lt (fun sz => Sl.range 0 sz) (finalShape g) p 0 Sl.all
        (by rw [hfinal_len]; exact hp)]
    show min ((finalShape g).getD p 0) ((denomSq g).shape.getD p 0) - 0 = _
    rw [hconv_getD p hp, hfinal_getD p hp]
    by_cases hmem : p ∈ Tpos g
    · simp only [hmem, if_true]
      have h2 := le_nextFastLen
        (g.arr1.shape.getD p 0 + g.arr2.shape.getD p 0 - 1)
      omega
    · simp only [hmem, if_false]
      have heq := hcheck p hp (hnotin_of_not_mem p hmem)
      omega
  refine ⟨?_, ?_⟩
  · show (denomSqC g).shape.length = ndim g
    unfold denomSqC sameCenter
    by_cases hm : g.mode = "same"
    · rw [if_pos hm, centered_shape_length]
      exact hcrop_len
    · rw [if_neg hm]
      exact hcrop_len
  · intro p hp
    show (denomSqC g).shape.getD p 0 = _
    unfold denomSqC sameCenter
    by_cases hm : g.mode = "same"
    · rw [if_pos hm, if_pos hm]
      have hax2 : ∀ a ∈ g.axes, pyIdx (cropFinal g (denomSq g)).shape.length a <
          (cropFinal g (denomSq g)).shape.length := by
        intro a ha
        rw [hcrop_len]
        exact hax (pyIdx (ndim g) a) (List.mem_map.mpr ⟨a, ha, rfl⟩)
      have hle2 : ∀ q ∈ g.axes.map (pyIdx (cropFinal g (denomSq g)).shape.length),
          g.arr1.shape.getD q 0 ≤ (cropFinal g (denomSq g)).shape.getD q 0 := by
        intro q hq
        rw [hcrop_len] at hq
        have hqT : q ∈ Tpos g := hq
        rw [hcrop_getD q (hax q hqT), if_pos hqT]
        have h3 := hpos2 q hqT
        omega
      have hcent := centered_shape_getD (cropFinal g (denomSq g)) g.arr1.shape g.axes
        hax2 hle2 p (by rw [hcrop_len]; exact hp)
      rw [hcrop_len] at hcent
      rw [hcent]
      by_cases hmem : p ∈ g.axes.map (pyIdx (ndim g))
      · simp only [hmem, if_true]
      · simp only [hmem, if_false]
        have hmem2 : p ∉ Tpos g := hmem
        rw [hcrop_getD p hp, if_neg hmem2]
    · rw [if_neg hm, if_neg hm]
      exact hcrop_getD p hp

/-- Witness for C3: a concrete 2-D call with sizes differing along the
transform axis. -/
theorem mnxc_output_shape_witness :
    (outArr exShape).shape.length = ndim exShape ∧
      (outArr exShape).shape.getD 1 0 =
        (if exShape.mode = "same" then exShape.arr1.shape.getD 1 0
         else if 1 ∈ Tpos exShape then
           exShape.arr1.shape.getD 1 0 + exShape.arr2.shape.getD 1 0 - 1
         else exShape.arr1.shape.getD 1 0) :=
  ⟨(mnxc_output_shape exShape (outArr exShape) rfl rfl rfl (by decide) (by decide)).1,
   (mnxc_output_shape exShape (outArr exShape) rfl rfl rfl (by decide) (by decide)).2
     1 (by decide)⟩

/-! ## The constant-image example scenario -/

lemma conv_const_data (T fast : List ℕ) (A B : NDArr ℚ) (a b : ℚ)
    (hA : ∀ u, A.data u = a) (hB : ∀ w, B.data w = b) (idx : List ℕ) :
    (convFFT T fast A B).data idx =
      a * b * ((tuples fast).map (fun j =>
        (if inB A.shape (setMany idx T j) then (1 : ℚ) else 0) *
        (if inB B.shape (setMany idx T
            (List.zipWith (fun kf jv => (kf.1 + kf.2 - jv) % kf.2)
              ((getMany idx T).zip fast) j)) then (1 : ℚ) else 0))).sum := by
  show ((tuples fast).map _).sum = _
  have hterm : ∀ j ∈ tuples fast,
      getPad A (setMany idx T j) *
        getPad B (setMany idx T
          (List.zipWith (fun kf jv => (kf.1 + kf.2 - jv) % kf.2)
            ((getMany idx T).zip fast) j)) =
      a * b * ((if inB A.shape (setMany idx T j) then (1 : ℚ) else 0) *
        (if inB B.shape (setMany idx T
            (List.zipWith (fun kf jv => (kf.1 + kf.2 - jv) % kf.2)
              ((getMany idx T).zip fast) j)) then (1 : ℚ) else 0)) := by
    intro j hj
    unfold getPad
    rw [hA, hB]
    by_cases h1 : inB A.shape (setMany idx T j) = true
    · by_cases h2 : inB B.shape (setMany idx T
          (List.zipWith (fun kf jv => (kf.1 + kf.2 - jv) % kf.2)
            ((getMany idx T).zip fast) j)) = true
      · rw [if_pos h1, if_pos h1, if_pos h2, if_pos h2]
        ring
      · rw [if_neg h2, if_neg h2, mul_zero, mul_zero, mul_zero]
    · rw [if_neg h1, if_neg h1, zero_mul, zero_mul, mul_zero]
  rw [map_congr_mem _ _ _ hterm]
  exact List.sum_map_mul_left _ _ _

lemma sum_indicator_natCast (l : List (List ℕ)) (f g : List ℕ → Bool) :
    ∃ k : ℕ, ((l.map (fun j =>
      (if f j then (1 : ℚ) else 0) * (if g j then (1 : ℚ) else 0))).sum) = (k : ℚ) := by
  induction l with
  | nil => exact ⟨0, by simp⟩
  | cons x xs ih =>
    obtain ⟨k, hk⟩ := ih
    by_cases hf : f x = true
    · by_cases hg : g x = true
      · refine ⟨k + 1, ?_⟩
        rw [List.map_cons, List.sum_cons, hk, if_pos hf, if_pos hg]
        push_cast
        ring
      · refine ⟨k, ?_⟩
        rw [List.map_cons, List.sum_cons, hk, if_neg hg, mul_zero, zero_add]
    · refine ⟨k, ?_⟩
      rw [List.map_cons, List.sum_cons, hk, if_neg hf, zero_mul, zero_add]

lemma npRound_natCast (k : ℕ) : npRound ((k : ℕ) : ℚ) = ((k : ℕ) : ℚ) := by
  unfold npRound
  rw [Int.floor_natCast]
  rw [if_neg (by push_cast; norm_num)]
  rw [round_natCast]
  push_cast
  rfl

lemma eps_le_one : eps ≤ (1 : ℚ) := by
  unfold eps
  norm_num

lemma exConst_denomSq_data_zero : ∀ idx, (denomSq exConst).data idx = 0 := by
  intro idx
  have hovl := conv_const_data (Tpos exConst) (fastShape exConst)
    (rotatedMovingMask exConst) (fixedMaskQ exConst) 1 1
    (fun u => rfl) (fun w => rfl) idx
  have hmcf := conv_const_data (Tpos exConst) (fastShape exConst)
    (rotatedMovingMask exConst) (fixedImage exConst) 1 10
    (fun u => rfl) (fun w => rfl) idx
  have hmcm := conv_const_data (Tpos exConst) (fastShape exConst)
    (fixedMaskQ exConst) (rotatedMovingImage exConst) 1 10
    (fun u => rfl) (fun w => rfl) idx
  have hfd5 := conv_const_data (Tpos exConst) (fastShape exConst)
    (rotatedMovingMask exConst) (squareArr (fixedImage exConst)) 1 100
    (fun u => rfl) (fun w => by show (10 : ℚ) * 10 = 100; norm_num) idx
  have hmd6 := conv_const_data (Tpos exConst) (fastShape exConst)
    (fixedMaskQ exConst) (squareArr (rotatedMovingImage exConst)) 1 100
    (fun u => rfl) (fun w => by show (10 : ℚ) * 10 = 100; norm_num) idx
  have hs1 : (rotatedMovingMask exConst).shape = [4, 4] :=
    flip_shape (movingMaskQ exConst) (some exConst.axes)
  have hs2 : (fixedMaskQ exConst).shape = [4, 4] := rfl
  have hs3 : (fixedImage exConst).shape = [4, 4] := rfl
  have hs4 : (squareArr (fixedImage exConst)).shape = [4, 4] := rfl
  have hs5 : (rotatedMovingImage exConst).shape = [4, 4] :=
    flip_shape (movingImage exConst) (some exConst.axes)
  have hs6 : (squareArr (rotatedMovingImage exConst)).shape = [4, 4] := hs5
  rw [hs1, hs2] at hovl
  rw [hs1, hs3] at hmcf
  rw [hs2, hs5] at hmcm
  rw [hs1, hs4] at hfd5
  rw [hs2, hs6] at hmd6
  obtain ⟨k, hk⟩ := sum_indicator_natCast (tuples (fastShape exConst))
    (fun j => inB [4, 4] (setMany idx (Tpos exConst) j))
    (fun j => inB [4, 4] (setMany idx (Tpos exConst)
      (List.zipWith (fun kf jv => (kf.1 + kf.2 - jv) % kf.2)
        ((getMany idx (Tpos exConst)).zip (fastShape exConst)) j)))
  rw [hk] at hovl hmcf hmcm hfd5 hmd6
  have hovl2 : (numberOverlapMaskedPx exConst).data idx = max ((k : ℕ) : ℚ) eps := by
    show max (npRound ((convFFT (Tpos exConst) (fastShape exConst)
      (rotatedMovingMask exConst) (fixedMaskQ exConst)).data idx)) eps = _
    rw [hovl, one_mul, one_mul, npRound_natCast]
  have hfd : (fixedDenom exConst).data idx = 0 := by
    show max ((convFFT (Tpos exConst) (fastShape exConst) (rotatedMovingMask exConst)
        (squareArr (fixedImage exConst))).data idx -
      (convFFT (Tpos exConst) (fastShape exConst) (rotatedMovingMask exConst)
        (fixedImage exConst)).data idx *
      (convFFT (Tpos exConst) (fastShape exConst) (rotatedMovingMask exConst)
        (fixedImage exConst)).data idx /
        (numberOverlapMaskedPx exConst).data idx) 0 = 0
    rw [hfd5, hmcf, hovl2]
    rcases Nat.eq_zero_or_pos k with hk0 | hkpos
    · subst hk0
      norm_num
    · have hke : max ((k : ℕ) : ℚ) eps = ((k : ℕ) : ℚ) :=
        max_eq_left (le_trans eps_le_one (by exact_mod_cast hkpos))
      rw [hke]
      have hkne : ((k : ℕ) : ℚ) ≠ 0 := by
        exact_mod_cast Nat.pos_iff_ne_zero.mp hkpos
      have hX : (1 : ℚ) * 100 * (k : ℕ) -
          (1 * 10 * ((k : ℕ) : ℚ)) * (1 * 10 * ((k : ℕ) : ℚ)) / ((k : ℕ) : ℚ) = 0 := by
        field_simp
        ring
      rw [hX, max_self]
  show (fixedDenom exConst).data idx * (movingDenom exConst).data idx = 0
  rw [hfd, zero_mul]

lemma exConst_out_zero : ∀ idx, outVal exConst idx = 0 := by
  intro idx
  have hdsqC : ∀ v, (denomSqC exConst).data v = 0 :=
    fun v => sameCenter_cropFinal_zero exConst (denomSq exConst) exConst_denomSq_data_zero v
  exact outArr_data_eq_zero exConst idx (hdsqC idx) (fun t _ => hdsqC _)

/-- C8 counterexample: on the spec's example scenario (constant 4×4
images, full masks) the value returned at the claimed peak offset (3,3)
is 0, not 1. -/
theorem mnxc_constant_example_counterexample :
    mnxc exConst = Except.ok exConstOut ∧ exConstOut.data [3, 3] ≠ 1 :=
  ⟨rfl, by
    have h0 : exConstOut.data [3, 3] = 0 := exConst_out_zero [3, 3]
    rw [h0]
    norm_num⟩

/-- C8 (amended): on the spec's example scenario the call succeeds with a
7×7 surface, but the constant image has zero variance, so the stability
threshold suppresses every offset: the surface is identically zero (in
particular 0, not 1, at the center offset), trivially within `[-1, 1]`
and free of undefined values. -/
theorem mnxc_constant_example_amended :
    mnxc exConst = Except.ok exConstOut ∧
      exConstOut.shape = [7, 7] ∧
      ∀ idx, exConstOut.data idx = 0 :=
  ⟨rfl, by decide, fun idx => exConst_out_zero idx⟩

/-- Witness for C6: a concrete center crop of a 4-vector to a 2-vector. -/
theorem centered_spec_witness :
    (_centered exList [2] [0]).shape.length = exList.shape.length ∧
      (_centered exList [2] [0]).data [0] =
        exList.data ((List.range exList.shape.length).map (fun p =>
          if p ∈ ([0] : List ℤ).map (pyIdx exList.shape.length) then
            (exList.shape.getD p 0 - ([2] : List ℕ).getD p 0) / 2 + [0].getD p 0
          else [0].getD p 0)) :=
  ⟨(centered_spec exList [2] [0] (by decide) (by decide)).1.1,
   (centered_spec exList [2] [0] (by decide) (by decide)).2 [0]⟩

end MNXC
